import Mathlib

/-!
Shallow embedding of the `mint` class from `src/mint.py` (a modular-integer
value type), together with proofs about its operations.

Modelling conventions:
* Python exceptions are modelled by `Except MErr`; each `MErr` constructor
  corresponds to one raise site (see the doc comment on `MErr`).
* Python `%` and `//` on integers are floor-mod / floor-div; for a positive
  right operand these agree with Lean's `Int.emod` / `Int.ediv` (the `%` and
  `/` of `Int`), and every `%` / `//` in the source runs with a positive
  right operand (the modulus is at least 2, and division checks the sign of
  the divisor first), so `%` and `/` below are faithful translations.
* The process-wide flag `mint._DISABLE_INT2MINT_CONVERSION` is threaded
  through each operation as an explicit boolean argument `dis`.
* A Python `float` operand is represented by its truncation toward zero
  (`PyNum.fval`): the source reads a float operand only through `int(value)`
  in `_check_value`, and `__eq__` ignores a float operand entirely, so no
  other information about the float is ever consulted.
* The embedding is purely functional: every operation builds a new `mint`
  record and none can modify an existing one, which models the source's
  immutability of `_value`, `_mod`, `_gcd` (enforced there by `__setattr__`).
-/

namespace MintSpec

/-- Error kinds raised by `src/mint.py`, named after the spec's taxonomy:
`InvalidValue` / `InvalidModulus` are the `ValueError`s of `__init__`;
`IncompatibleModulus` is the `ValueError` of `_check_value` for a mismatched
modulus; `ConversionDisabled` is the `TypeError` of `_check_value` when
int-to-mint conversion is disabled; `NotInvertible` is the `ValueError` of
`__pow__`; `NegativeDivisor`, `DivideByZero`, `NotDivisible` are the three
raises of `__truediv__`. -/
inductive MErr where
  | InvalidValue
  | InvalidModulus
  | IncompatibleModulus
  | ConversionDisabled
  | NotInvertible
  | NegativeDivisor
  | DivideByZero
  | NotDivisible
deriving Repr, DecidableEq

/-- State of a `mint` instance: the slots `_value`, `_mod`, `_gcd`
(the last exposed as the property `vm_gcd`). -/
structure mint where
  value : Int
  mod : Int
  vm_gcd : Int
deriving Repr, DecidableEq

/-- Construction (`mint.__init__`): requires `mod ≥ 2` (the isinstance
checks on `value` and `mod` are rendered by the `Int` types of the
arguments), stores `value % mod` and caches `gcd(stored value, mod)`. -/
def mint.init (value : Int) (mod : Int) : Except MErr mint :=
  if mod ≤ 1 then .error .InvalidModulus
  else .ok ⟨value % mod, mod, (Int.gcd (value % mod) mod : Int)⟩

/-- Second operand of a binary operator, as the source distinguishes them:
a `mint`, a plain `int`, a `float` (represented by its truncation toward
zero, the only datum the source ever reads from it), or a `bool`. -/
inductive PyNum where
  | mval : mint → PyNum
  | ival : Int → PyNum
  | fval : Int → PyNum
  | bval : Bool → PyNum
deriving Repr, DecidableEq

/-- Operand as delivered to a method body by the `_check_value` decorator:
either a same-modulus `mint` or a plain integer. -/
inductive Coerced where
  | cm : mint → Coerced
  | ci : Int → Coerced
deriving Repr, DecidableEq

/-- Coercion protocol (the `mint._check_value` decorator). `passInt` is true
exactly for the methods in the source's pass-through list (`__mul__`,
`__rmul__`, `__pow__`, `__floordiv__`, `__truediv__`, `__rfloordiv__`,
`__rtruediv__` — note `__rpow__` is not in it). A `mint` operand must have
the same modulus; a float is truncated and a bool is narrowed to 0/1; a
plain integer is passed through when `passInt`, and otherwise promoted via
`mint.init` unless conversion is disabled (`dis`). -/
def mint.check_value (passInt : Bool) (dis : Bool) (self : mint) (other : PyNum) :
    Except MErr Coerced :=
  let handleInt : Int → Except MErr Coerced := fun n =>
    if passInt then .ok (.ci n)
    else if dis then .error .ConversionDisabled
    else match mint.init n self.mod with
      | .ok c => .ok (.cm c)
      | .error e => .error e
  match other with
  | .mval b => if self.mod ≠ b.mod then .error .IncompatibleModulus else .ok (.cm b)
  | .fval t => handleInt t
  | .bval b => handleInt (if b then 1 else 0)
  | .ival n => handleInt n

/-- Unary minus (`mint.__neg__`). -/
def mint.neg (self : mint) : Except MErr mint :=
  mint.init (-self.value) self.mod

/-- Bitwise complement (`mint.__invert__`); Python `~v` is `-v - 1`. -/
def mint.invert (self : mint) : Except MErr mint :=
  mint.init (-self.value - 1) self.mod

/-- Addition (`mint.__add__`, decorated, not in the pass-through list). The
`.ci` branch is unreachable: `check_value` with `passInt = false` never
yields a plain integer. -/
def mint.add (dis : Bool) (self : mint) (other : PyNum) : Except MErr mint :=
  match mint.check_value false dis self other with
  | .error e => .error e
  | .ok (.cm b) => mint.init (self.value + b.value) self.mod
  | .ok (.ci _) => .error .InvalidValue

/-- Reverse addition (`mint.__radd__`). The `.ci` branch is unreachable. -/
def mint.radd (dis : Bool) (self : mint) (other : PyNum) : Except MErr mint :=
  match mint.check_value false dis self other with
  | .error e => .error e
  | .ok (.cm b) => mint.init (b.value + self.value) self.mod
  | .ok (.ci _) => .error .InvalidValue

/-- Subtraction (`mint.__sub__`). The `.ci` branch is unreachable. -/
def mint.sub (dis : Bool) (self : mint) (other : PyNum) : Except MErr mint :=
  match mint.check_value false dis self other with
  | .error e => .error e
  | .ok (.cm b) => mint.init (self.value - b.value) self.mod
  | .ok (.ci _) => .error .InvalidValue

/-- Reverse subtraction (`mint.__rsub__`). The `.ci` branch is unreachable. -/
def mint.rsub (dis : Bool) (self : mint) (other : PyNum) : Except MErr mint :=
  match mint.check_value false dis self other with
  | .error e => .error e
  | .ok (.cm b) => mint.init (b.value - self.value) self.mod
  | .ok (.ci _) => .error .InvalidValue

/-- Multiplication (`mint.__mul__`, in the pass-through list): by a plain
integer `k` it returns `init 0 mod` when `k = 0` and otherwise scales both
value and modulus (`init (v * k) (mod * k)`); by a same-modulus `mint` it
keeps the modulus. -/
def mint.mul (dis : Bool) (self : mint) (other : PyNum) : Except MErr mint :=
  match mint.check_value true dis self other with
  | .error e => .error e
  | .ok (.ci k) =>
      if k = 0 then mint.init 0 self.mod
      else mint.init (self.value * k) (self.mod * k)
  | .ok (.cm b) => mint.init (self.value * b.value) self.mod

/-- Reverse multiplication (`mint.__rmul__`) just delegates to `__mul__`. -/
def mint.rmul (dis : Bool) (self : mint) (other : PyNum) : Except MErr mint :=
  mint.mul dis self other

/-- Modular inverse as computed by Python's built-in `pow(v, -1, m)` for
`m > 0`: the x in `[0, m)` with `v * x ≡ 1 (mod m)`, here found by direct
search (it is unique when it exists, so the search models the built-in
faithfully whenever `gcd(v, m) = 1`; otherwise the built-in raises, a case
the source rules out before calling it). -/
def invMod (v m : Int) : Int :=
  match (List.range m.toNat).find? (fun x : Nat => (v * (x : Int)) % m == 1) with
  | some x => (x : Int)
  | none => 0

/-- Python's three-argument built-in `pow(v, e, m)` for `m > 0`: for a
non-negative exponent, `v ^ e mod m`; for a negative exponent, the modular
inverse of `v` raised to `-e`, mod `m`. -/
def pypow (v e m : Int) : Int :=
  if 0 ≤ e then v ^ e.toNat % m
  else invMod v m ^ e.natAbs % m

/-- Power (`mint.__pow__`, in the pass-through list): a negative plain
integer exponent requires the cached gcd to be 1, else `NotInvertible`;
the result is `init (pow v e mod) mod`, modulus unchanged. -/
def mint.pow (dis : Bool) (self : mint) (other : PyNum) : Except MErr mint :=
  match mint.check_value true dis self other with
  | .error e => .error e
  | .ok (.ci e) =>
      if e < 0 ∧ self.vm_gcd ≠ 1 then .error .NotInvertible
      else mint.init (pypow self.value e self.mod) self.mod
  | .ok (.cm b) => mint.init (pypow self.value b.value self.mod) self.mod

/-- Reverse power (`mint.__rpow__`, decorated but NOT in the source's
pass-through list, so a plain-integer base is promoted — or rejected when
conversion is disabled). The `.ci` branch is unreachable. -/
def mint.rpow (dis : Bool) (self : mint) (other : PyNum) : Except MErr mint :=
  match mint.check_value false dis self other with
  | .error e => .error e
  | .ok (.cm b) => mint.init (pypow b.value self.value self.mod) self.mod
  | .ok (.ci _) => .error .InvalidValue

/-- True division (`mint.__truediv__`, in the pass-through list): the
divisor is the plain integer itself or the value of a same-modulus `mint`;
it must be positive and divide the value exactly; the result divides the
value by `d` and the modulus by `gcd(mod, d)`. -/
def mint.truediv (dis : Bool) (self : mint) (other : PyNum) : Except MErr mint :=
  match mint.check_value true dis self other with
  | .error e => .error e
  | .ok c =>
      let divider : Int := match c with | .cm b => b.value | .ci n => n
      if divider < 0 then .error .NegativeDivisor
      else if divider = 0 then .error .DivideByZero
      else if self.value % divider ≠ 0 then .error .NotDivisible
      else mint.init (self.value / divider) (self.mod / (Int.gcd self.mod divider : Int))

/-- Floor division (`mint.__floordiv__`) delegates to `__truediv__`. -/
def mint.floordiv (dis : Bool) (self : mint) (other : PyNum) : Except MErr mint :=
  mint.truediv dis self other

/-- Equality (`mint.__eq__`): NOT decorated with `_check_value`. A `mint`
operand compares value and modulus exactly; an `int` (or `bool`, which
Python treats as an `int` here) compares `value == other % mod` and also
requires conversion to be enabled; any other operand — including a float —
yields `false`. Total (never raises). -/
def mint.eq (dis : Bool) (self : mint) (other : PyNum) : Bool :=
  match other with
  | .mval b => self.value == b.value && self.mod == b.mod
  | .ival n => self.value == n % self.mod && !dis
  | .bval b => self.value == (if b then (1 : Int) else 0) % self.mod && !dis
  | .fval _ => false

/-- Inequality (`mint.__ne__`): the boolean negation of `__eq__`. -/
def mint.ne (dis : Bool) (self : mint) (other : PyNum) : Bool :=
  !(mint.eq dis self other)

/-- Less-than (`mint.__lt__`, decorated, not in the pass-through list).
The `.ci` branch is unreachable. -/
def mint.lt (dis : Bool) (self : mint) (other : PyNum) : Except MErr Bool :=
  match mint.check_value false dis self other with
  | .error e => .error e
  | .ok (.cm b) => .ok (decide (self.value < b.value))
  | .ok (.ci _) => .error .InvalidValue

/-- Less-or-equal (`mint.__le__`). The `.ci` branch is unreachable. -/
def mint.le (dis : Bool) (self : mint) (other : PyNum) : Except MErr Bool :=
  match mint.check_value false dis self other with
  | .error e => .error e
  | .ok (.cm b) => .ok (decide (self.value ≤ b.value))
  | .ok (.ci _) => .error .InvalidValue

/-- Greater-than (`mint.__gt__`). The `.ci` branch is unreachable. -/
def mint.gt (dis : Bool) (self : mint) (other : PyNum) : Except MErr Bool :=
  match mint.check_value false dis self other with
  | .error e => .error e
  | .ok (.cm b) => .ok (decide (self.value > b.value))
  | .ok (.ci _) => .error .InvalidValue

/-- Greater-or-equal (`mint.__ge__`). The `.ci` branch is unreachable. -/
def mint.ge (dis : Bool) (self : mint) (other : PyNum) : Except MErr Bool :=
  match mint.check_value false dis self other with
  | .error e => .error e
  | .ok (.cm b) => .ok (decide (self.value ≥ b.value))
  | .ok (.ci _) => .error .InvalidValue

/-- Invariants of a `mint` instance (spec §3): value normalized into
`[0, mod)`, modulus at least 2, and the cached gcd equal to
`gcd(value, mod)`. -/
def Inv (a : mint) : Prop :=
  0 ≤ a.value ∧ a.value < a.mod ∧ 2 ≤ a.mod ∧ a.vm_gcd = (Int.gcd a.value a.mod : Int)

instance (a : mint) : Decidable (Inv a) :=
  inferInstanceAs (Decidable (0 ≤ a.value ∧ a.value < a.mod ∧ 2 ≤ a.mod ∧
    a.vm_gcd = (Int.gcd a.value a.mod : Int)))

instance {ε α : Type} [DecidableEq ε] [DecidableEq α] : DecidableEq (Except ε α) := fun x y =>
  match x, y with
  | .ok a, .ok b => if h : a = b then .isTrue (by rw [h]) else .isFalse (by simp [h])
  | .error a, .error b => if h : a = b then .isTrue (by rw [h]) else .isFalse (by simp [h])
  | .ok _, .error _ => .isFalse (by simp)
  | .error _, .ok _ => .isFalse (by simp)

/-- Every successful construction satisfies the entity invariants. -/
theorem init_ok_inv {v m : Int} {r : mint} (h : mint.init v m = .ok r) : Inv r := by
  unfold mint.init at h
  split at h
  · exact absurd h (by simp)
  · rename_i hm
    cases h
    refine ⟨Int.emod_nonneg v (by omega), Int.emod_lt_of_pos v (by omega), ?_, rfl⟩
    show 2 ≤ m
    omega

/-- Reduction of a successful construction to its normal form. -/
theorem init_eq_ok {m : Int} (v : Int) (hm : 2 ≤ m) :
    mint.init v m = .ok ⟨v % m, m, (Int.gcd (v % m) m : Int)⟩ := by
  unfold mint.init
  rw [if_neg (show ¬ m ≤ 1 by omega)]

/-- Modulus of a successfully constructed entity is the requested one. -/
theorem init_ok_mod {v m : Int} {r : mint} (h : mint.init v m = .ok r) : r.mod = m := by
  unfold mint.init at h
  split at h
  · exact absurd h (by simp)
  · cases h; rfl

/-- Construction only ever fails with `InvalidModulus`. -/
theorem init_error {v m : Int} {e : MErr} (h : mint.init v m = .error e) :
    e = .InvalidModulus := by
  unfold mint.init at h
  split at h
  · cases h; rfl
  · exact absurd h (by simp)

/-- Reducing the base of a modular power modulo the modulus does not change
the result. -/
theorem emod_pow_emod (a : Int) (k : Nat) (n : Int) : (a % n) ^ k % n = a ^ k % n :=
  Int.ModEq.pow k (Int.emod_emod_of_dvd a dvd_rfl)

/-- Reduction of `__truediv__` on a plain-integer operand. -/
theorem truediv_ival (dis : Bool) (a : mint) (d : Int) :
    mint.truediv dis a (.ival d) =
      (if d < 0 then .error .NegativeDivisor
       else if d = 0 then .error .DivideByZero
       else if a.value % d ≠ 0 then .error .NotDivisible
       else mint.init (a.value / d) (a.mod / (Int.gcd a.mod d : Int))) := rfl

/-- Reduction of `__truediv__` on a same-modulus `mint` operand. -/
theorem truediv_mval (dis : Bool) (a b : mint) (hb : b.mod = a.mod) :
    mint.truediv dis a (.mval b) =
      (if b.value < 0 then .error .NegativeDivisor
       else if b.value = 0 then .error .DivideByZero
       else if a.value % b.value ≠ 0 then .error .NotDivisible
       else mint.init (a.value / b.value) (a.mod / (Int.gcd a.mod b.value : Int))) := by
  unfold mint.truediv mint.check_value
  dsimp only
  rw [if_neg (show ¬ a.mod ≠ b.mod by omega)]

/-- Reduction of `__mul__` on a plain-integer operand. -/
theorem mul_ival (dis : Bool) (a : mint) (k : Int) :
    mint.mul dis a (.ival k) =
      (if k = 0 then mint.init 0 a.mod else mint.init (a.value * k) (a.mod * k)) := rfl

/-- Reduction of `__mul__` on a same-modulus `mint` operand. -/
theorem mul_mval (dis : Bool) (a b : mint) (hb : b.mod = a.mod) :
    mint.mul dis a (.mval b) = mint.init (a.value * b.value) a.mod := by
  unfold mint.mul mint.check_value
  dsimp only
  rw [if_neg (show ¬ a.mod ≠ b.mod by omega)]

/-- Reduction of `__pow__` on a plain-integer exponent. -/
theorem pow_ival (dis : Bool) (a : mint) (e : Int) :
    mint.pow dis a (.ival e) =
      (if e < 0 ∧ a.vm_gcd ≠ 1 then .error .NotInvertible
       else mint.init (pypow a.value e a.mod) a.mod) := rfl

/-- C4: every `mint` produced by explicit construction (with any integer value,
including negative or out-of-range ones) or as the successful result of any
defined operation satisfies the invariants `0 ≤ value < mod`, `2 ≤ mod` and
`vm_gcd = gcd(value, mod)`. No operation mutates an existing operand: in this
embedding every operation is a pure function building a new record (see the
module doc on immutability). -/
theorem C4_invariants :
    (∀ (v m : Int) (r : mint), mint.init v m = .ok r → Inv r) ∧
    (∀ (a r : mint), mint.neg a = .ok r → Inv r) ∧
    (∀ (a r : mint), mint.invert a = .ok r → Inv r) ∧
    (∀ (dis : Bool) (a : mint) (o : PyNum) (r : mint), mint.add dis a o = .ok r → Inv r) ∧
    (∀ (dis : Bool) (a : mint) (o : PyNum) (r : mint), mint.radd dis a o = .ok r → Inv r) ∧
    (∀ (dis : Bool) (a : mint) (o : PyNum) (r : mint), mint.sub dis a o = .ok r → Inv r) ∧
    (∀ (dis : Bool) (a : mint) (o : PyNum) (r : mint), mint.rsub dis a o = .ok r → Inv r) ∧
    (∀ (dis : Bool) (a : mint) (o : PyNum) (r : mint), mint.mul dis a o = .ok r → Inv r) ∧
    (∀ (dis : Bool) (a : mint) (o : PyNum) (r : mint), mint.rmul dis a o = .ok r → Inv r) ∧
    (∀ (dis : Bool) (a : mint) (o : PyNum) (r : mint), mint.pow dis a o = .ok r → Inv r) ∧
    (∀ (dis : Bool) (a : mint) (o : PyNum) (r : mint), mint.rpow dis a o = .ok r → Inv r) ∧
    (∀ (dis : Bool) (a : mint) (o : PyNum) (r : mint), mint.truediv dis a o = .ok r → Inv r) ∧
    (∀ (dis : Bool) (a : mint) (o : PyNum) (r : mint), mint.floordiv dis a o = .ok r → Inv r) := by
  have hdiv : ∀ (dis : Bool) (a : mint) (o : PyNum) (r : mint),
      mint.truediv dis a o = .ok r → Inv r := by
    intro dis a o r h
    unfold mint.truediv at h
    split at h
    · simp at h
    · rename_i c hc
      cases c <;> dsimp only at h <;> (repeat' split at h) <;>
        first | simp at h | exact init_ok_inv h
  have hmul : ∀ (dis : Bool) (a : mint) (o : PyNum) (r : mint),
      mint.mul dis a o = .ok r → Inv r := by
    intro dis a o r h
    unfold mint.mul at h
    split at h
    · simp at h
    · split at h <;> exact init_ok_inv h
    · exact init_ok_inv h
  refine ⟨fun _ _ _ => init_ok_inv, fun _ _ => init_ok_inv, fun _ _ => init_ok_inv,
    ?_, ?_, ?_, ?_, hmul, hmul, ?_, ?_, hdiv, hdiv⟩
  · intro dis a o r h
    unfold mint.add at h
    split at h
    · simp at h
    · exact init_ok_inv h
    · simp at h
  · intro dis a o r h
    unfold mint.radd at h
    split at h
    · simp at h
    · exact init_ok_inv h
    · simp at h
  · intro dis a o r h
    unfold mint.sub at h
    split at h
    · simp at h
    · exact init_ok_inv h
    · simp at h
  · intro dis a o r h
    unfold mint.rsub at h
    split at h
    · simp at h
    · exact init_ok_inv h
    · simp at h
  · intro dis a o r h
    unfold mint.pow at h
    split at h
    · simp at h
    · split at h
      · simp at h
      · exact init_ok_inv h
    · exact init_ok_inv h
  · intro dis a o r h
    unfold mint.rpow at h
    split at h
    · simp at h
    · exact init_ok_inv h
    · simp at h

/-- Witness for C4: the entity constructed from (7, 5) satisfies the
invariants. -/
theorem C4_invariants_witness : Inv ⟨2, 5, 1⟩ :=
  C4_invariants.1 7 5 ⟨2, 5, 1⟩ rfl

/-- C1: multiplying by a plain integer k returns `Construct(0, m)` when k = 0
and `Construct(v * k, m * k)` otherwise (so for positive k the result has
modulus m * k and value (v * k) mod (m * k)); multiplying by a same-modulus
modular operand returns `Construct(v * other.value, m)`; and
`Construct(7, 10) * 3` has value 21 and modulus 30. -/
theorem C1_mul_scaling :
    (∀ (dis : Bool) (a : mint), mint.mul dis a (.ival 0) = mint.init 0 a.mod) ∧
    (∀ (dis : Bool) (a : mint) (k : Int), k ≠ 0 →
        mint.mul dis a (.ival k) = mint.init (a.value * k) (a.mod * k)) ∧
    (∀ (dis : Bool) (a b : mint), b.mod = a.mod →
        mint.mul dis a (.mval b) = mint.init (a.value * b.value) a.mod) ∧
    (∀ (dis : Bool) (a : mint) (k : Int), 0 < k → 2 ≤ a.mod →
        ∃ r, mint.mul dis a (.ival k) = .ok r ∧
          r.value = a.value * k % (a.mod * k) ∧ r.mod = a.mod * k) ∧
    (mint.init 7 10).bind (fun a => mint.mul false a (.ival 3)) = .ok ⟨21, 30, 3⟩ := by
  refine ⟨fun dis a => by rw [mul_ival]; simp, fun dis a k hk => by rw [mul_ival, if_neg hk],
    mul_mval, ?_, rfl⟩
  intro dis a k hk hm
  have hmk : 2 ≤ a.mod * k := le_trans hm (le_mul_of_one_le_right (by omega) (by omega))
  rw [mul_ival, if_neg (by omega), init_eq_ok _ hmk]
  exact ⟨_, rfl, rfl, rfl⟩

/-- Witness for C1 at `Construct(7, 10) * 3` and a same-modulus operand. -/
theorem C1_mul_scaling_witness :
    mint.mul false ⟨7, 10, 1⟩ (.ival 3) = mint.init 21 30 ∧
    mint.mul false ⟨7, 10, 1⟩ (.mval ⟨3, 10, 1⟩) = mint.init 21 10 ∧
    ∃ r, mint.mul false ⟨7, 10, 1⟩ (.ival 3) = .ok r ∧ r.value = 21 ∧ r.mod = 30 := by
  refine ⟨C1_mul_scaling.2.1 false ⟨7, 10, 1⟩ 3 (by decide),
    C1_mul_scaling.2.2.1 false ⟨7, 10, 1⟩ ⟨3, 10, 1⟩ rfl, ?_⟩
  obtain ⟨r, h1, h2, h3⟩ := C1_mul_scaling.2.2.2.1 false ⟨7, 10, 1⟩ 3 (by decide) (by decide)
  exact ⟨r, h1, by rw [h2]; decide, by rw [h3]; decide⟩

/-- C2: with a plain-integer divisor or the value of a same-modulus modular
divisor d, both `/` and `//` fail with NegativeDivisor when d < 0, with
DivideByZero when d = 0, with NotDivisible when d > 0 and v mod d is nonzero,
and return `Construct(v // d, m // gcd(m, d))` when d > 0 divides v; floor
division is identical to true division. -/
theorem C2_division_errors :
    (∀ (dis : Bool) (a : mint) (d : Int),
       (d < 0 → mint.truediv dis a (.ival d) = .error .NegativeDivisor) ∧
       (d = 0 → mint.truediv dis a (.ival d) = .error .DivideByZero) ∧
       (0 < d → a.value % d ≠ 0 → mint.truediv dis a (.ival d) = .error .NotDivisible) ∧
       (0 < d → a.value % d = 0 →
         mint.truediv dis a (.ival d) =
           mint.init (a.value / d) (a.mod / (Int.gcd a.mod d : Int)))) ∧
    (∀ (dis : Bool) (a b : mint), b.mod = a.mod →
       (b.value < 0 → mint.truediv dis a (.mval b) = .error .NegativeDivisor) ∧
       (b.value = 0 → mint.truediv dis a (.mval b) = .error .DivideByZero) ∧
       (0 < b.value → a.value % b.value ≠ 0 →
         mint.truediv dis a (.mval b) = .error .NotDivisible) ∧
       (0 < b.value → a.value % b.value = 0 →
         mint.truediv dis a (.mval b) =
           mint.init (a.value / b.value) (a.mod / (Int.gcd a.mod b.value : Int)))) ∧
    (∀ (dis : Bool) (a : mint) (o : PyNum), mint.floordiv dis a o = mint.truediv dis a o) := by
  refine ⟨?_, ?_, fun dis a o => rfl⟩
  · intro dis a d
    refine ⟨fun h => ?_, fun h => ?_, fun h hnd => ?_, fun h hd => ?_⟩
    · rw [truediv_ival, if_pos h]
    · rw [truediv_ival, if_neg (by omega), if_pos h]
    · rw [truediv_ival, if_neg (by omega), if_neg (by omega), if_pos hnd]
    · rw [truediv_ival, if_neg (by omega), if_neg (by omega), if_neg (by omega)]
  · intro dis a b hb
    refine ⟨fun h => ?_, fun h => ?_, fun h hnd => ?_, fun h hd => ?_⟩
    · rw [truediv_mval dis a b hb, if_pos h]
    · rw [truediv_mval dis a b hb, if_neg (by omega), if_pos h]
    · rw [truediv_mval dis a b hb, if_neg (by omega), if_neg (by omega), if_pos hnd]
    · rw [truediv_mval dis a b hb, if_neg (by omega), if_neg (by omega), if_neg (by omega)]

/-- Witness for C2 at `Construct(4, 6)` with divisors -2, 0, 3 and 2. -/
theorem C2_division_errors_witness :
    mint.truediv false ⟨4, 6, 2⟩ (.ival (-2)) = .error .NegativeDivisor ∧
    mint.truediv false ⟨4, 6, 2⟩ (.ival 0) = .error .DivideByZero ∧
    mint.truediv false ⟨4, 6, 2⟩ (.ival 3) = .error .NotDivisible ∧
    mint.truediv false ⟨4, 6, 2⟩ (.ival 2) = mint.init 2 3 ∧
    mint.truediv false ⟨4, 6, 2⟩ (.mval ⟨2, 6, 2⟩) = mint.init 2 3 := by
  refine ⟨(C2_division_errors.1 false ⟨4, 6, 2⟩ (-2)).1 (by decide),
    (C2_division_errors.1 false ⟨4, 6, 2⟩ 0).2.1 rfl,
    (C2_division_errors.1 false ⟨4, 6, 2⟩ 3).2.2.1 (by decide) (by decide),
    ?_, ?_⟩
  · have h := (C2_division_errors.1 false ⟨4, 6, 2⟩ 2).2.2.2 (by decide) (by decide)
    exact h.trans (by decide)
  · have h := (C2_division_errors.2.1 false ⟨4, 6, 2⟩ ⟨2, 6, 2⟩ rfl).2.2.2 (by decide) (by decide)
    exact h.trans (by decide)

/-- C10: even when the divisor is positive and divides the value, division
fails with the construction-time InvalidModulus error whenever the result
modulus `m // gcd(m, d)` would be less than 2; in particular
`Construct(0, 5) / 5` fails with InvalidModulus. -/
theorem C10_div_modulus_collapse :
    (∀ (dis : Bool) (a : mint) (d : Int), 0 < d → a.value % d = 0 →
        a.mod / (Int.gcd a.mod d : Int) < 2 →
        mint.truediv dis a (.ival d) = .error .InvalidModulus) ∧
    (mint.init 0 5).bind (fun a => mint.truediv false a (.ival 5)) = .error .InvalidModulus := by
  refine ⟨?_, rfl⟩
  intro dis a d hd hdvd hcol
  rw [truediv_ival, if_neg (by omega), if_neg (by omega), if_neg (by omega)]
  unfold mint.init
  rw [if_pos (by omega)]

/-- Witness for C10 at `Construct(0, 5) / 5`. -/
theorem C10_div_modulus_collapse_witness :
    mint.truediv false ⟨0, 5, 5⟩ (.ival 5) = .error .InvalidModulus :=
  C10_div_modulus_collapse.1 false ⟨0, 5, 5⟩ 5 (by decide) (by decide) (by decide)


/-- C3: for every entity a satisfying the invariants and every positive
integer k, scaling by k succeeds, dividing the result by k succeeds, and the
final entity is exactly a again (same value and same modulus, so `==` holds). -/
theorem C3_roundtrip (dis : Bool) (a : mint) (k : Int) (ha : Inv a) (hk : 0 < k) :
    ∃ b c, mint.mul dis a (.ival k) = .ok b ∧ mint.truediv dis b (.ival k) = .ok c ∧
      c = a ∧ mint.eq dis c (.mval a) = true := by
  obtain ⟨h0, h1, h2, h3⟩ := ha
  have hmk : 2 ≤ a.mod * k := le_trans h2 (le_mul_of_one_le_right (by omega) (by omega))
  have hvk : a.value * k % (a.mod * k) = a.value * k :=
    Int.emod_eq_of_lt (mul_nonneg h0 (by omega)) (mul_lt_mul_of_pos_right h1 hk)
  refine ⟨⟨a.value * k, a.mod * k, (Int.gcd (a.value * k) (a.mod * k) : Int)⟩, a,
    ?_, ?_, rfl, ?_⟩
  · rw [mul_ival, if_neg (by omega), init_eq_ok _ hmk, hvk]
  · rw [truediv_ival, if_neg (by omega), if_neg (by omega), if_neg (by simp [Int.mul_emod_left])]
    have hgk : (Int.gcd (a.mod * k) k : Int) = k := by
      rw [Int.gcd_eq_right ⟨a.mod, mul_comm a.mod k⟩, Int.natAbs_of_nonneg (by omega)]
    show mint.init (a.value * k / k) (a.mod * k / (Int.gcd (a.mod * k) k : Int)) = .ok a
    rw [hgk, Int.mul_ediv_cancel a.value (by omega), Int.mul_ediv_cancel a.mod (by omega),
      init_eq_ok _ h2, Int.emod_eq_of_lt h0 h1]
    cases a with
    | mk v m g =>
        simp only at h3
        rw [h3]
  · unfold mint.eq
    simp

/-- Witness for C3 at `Construct(7, 10)` and k = 3. -/
theorem C3_roundtrip_witness :
    ∃ b c, mint.mul false ⟨7, 10, 1⟩ (.ival 3) = .ok b ∧
      mint.truediv false b (.ival 3) = .ok c ∧
      c = ⟨7, 10, 1⟩ ∧ mint.eq false c (.mval ⟨7, 10, 1⟩) = true :=
  C3_roundtrip false ⟨7, 10, 1⟩ 3 (by decide) (by decide)


/-- Reducing the right factor modulo m inside a product does not change the
product mod m. -/
theorem mul_emod_absorb (x A m : Int) : x * (A % m) % m = x * A % m := by
  conv_lhs => rw [Int.mul_emod]
  rw [Int.emod_emod_of_dvd _ dvd_rfl, ← Int.mul_emod]

/-- When `gcd(v, m) = 1` and `m ≥ 2`, `invMod v m` is in `[0, m)` and is a
modular inverse of v. -/
theorem invMod_spec {v m : Int} (hg : Int.gcd v m = 1) (hm : 2 ≤ m) :
    0 ≤ invMod v m ∧ invMod v m < m ∧ v * invMod v m % m = 1 := by
  have hex : ∃ n, n ∈ List.range m.toNat ∧ ((v * (n : Int)) % m == 1) = true := by
    have h0 : 0 ≤ Int.gcdA v m % m := Int.emod_nonneg _ (by omega)
    have h1 : Int.gcdA v m % m < m := Int.emod_lt_of_pos _ (by omega)
    refine ⟨(Int.gcdA v m % m).toNat, List.mem_range.mpr (by omega), ?_⟩
    rw [Int.toNat_of_nonneg h0]
    have hbez : (1 : Int) = v * Int.gcdA v m + m * Int.gcdB v m := by
      have hab := Int.gcd_eq_gcd_ab v m
      rw [hg] at hab
      simpa using hab
    have hva : v * Int.gcdA v m = 1 + m * (-Int.gcdB v m) := by linarith
    have hmod : v * (Int.gcdA v m % m) % m = 1 := by
      rw [mul_emod_absorb, hva, Int.add_mul_emod_self_left,
        Int.emod_eq_of_lt (by omega) (by omega)]
    rw [hmod]
    rfl
  obtain ⟨n, hmem, hp⟩ := hex
  rcases hf : (List.range m.toNat).find? (fun x : Nat => (v * (x : Int)) % m == 1) with _ | x
  · exact absurd hp (by simpa using List.find?_eq_none.mp hf n hmem)
  · have hx : (v * (x : Int)) % m = 1 := by simpa using List.find?_some hf
    have hxm := List.mem_range.mp (List.mem_of_find?_eq_some hf)
    have hval : invMod v m = (x : Int) := by unfold invMod; rw [hf]
    rw [hval]
    exact ⟨by positivity, by omega, hx⟩

/-- C5: `a ** e` with a plain-integer exponent fails with NotInvertible when
e < 0 and the cached gcd is not 1; otherwise it returns
`Construct(pow(v, e, m), m)`; the modulus of any successful power is
unchanged; and for an invertible a the value of `a ** -1` is the unique x in
`[0, m)` with `(a.value * x) mod m = 1`. -/
theorem C5_pow_spec :
    (∀ (dis : Bool) (a : mint) (e : Int), e < 0 → a.vm_gcd ≠ 1 →
        mint.pow dis a (.ival e) = .error .NotInvertible) ∧
    (∀ (dis : Bool) (a : mint) (e : Int), ¬(e < 0 ∧ a.vm_gcd ≠ 1) →
        mint.pow dis a (.ival e) = mint.init (pypow a.value e a.mod) a.mod) ∧
    (∀ (dis : Bool) (a : mint) (e : Int) (r : mint),
        mint.pow dis a (.ival e) = .ok r → r.mod = a.mod) ∧
    (∀ (dis : Bool) (a : mint), Inv a → a.vm_gcd = 1 →
        ∃ r, mint.pow dis a (.ival (-1)) = .ok r ∧
          0 ≤ r.value ∧ r.value < a.mod ∧ a.value * r.value % a.mod = 1 ∧
          ∀ x : Int, 0 ≤ x → x < a.mod → a.value * x % a.mod = 1 → x = r.value) := by
  refine ⟨?_, ?_, ?_, ?_⟩
  · intro dis a e he hg
    rw [pow_ival, if_pos ⟨he, hg⟩]
  · intro dis a e h
    rw [pow_ival, if_neg h]
  · intro dis a e r h
    rw [pow_ival] at h
    split at h
    · simp at h
    · exact init_ok_mod h
  · intro dis a ha hg1
    obtain ⟨h0, h1, h2, h3⟩ := ha
    have hgn : Int.gcd a.value a.mod = 1 := by
      have hc : (Int.gcd a.value a.mod : Int) = 1 := by rw [← h3, hg1]
      exact_mod_cast hc
    obtain ⟨hi0, hi1, hi2⟩ := invMod_spec hgn h2
    have hpy : pypow a.value (-1) a.mod = invMod a.value a.mod := by
      unfold pypow
      rw [if_neg (by omega)]
      show invMod a.value a.mod ^ (1 : Nat) % a.mod = _
      rw [pow_one, Int.emod_eq_of_lt hi0 hi1]
    refine ⟨⟨invMod a.value a.mod, a.mod, (Int.gcd (invMod a.value a.mod) a.mod : Int)⟩,
      ?_, hi0, hi1, hi2, ?_⟩
    · rw [pow_ival, if_neg (by simp [hg1]), hpy, init_eq_ok _ h2,
        Int.emod_eq_of_lt hi0 hi1]
    · intro x hx0 hx1 hx
      show x = invMod a.value a.mod
      calc x = x % a.mod := (Int.emod_eq_of_lt hx0 hx1).symm
        _ = x * (a.value * invMod a.value a.mod % a.mod) % a.mod := by rw [hi2, mul_one]
        _ = x * (a.value * invMod a.value a.mod) % a.mod := mul_emod_absorb _ _ _
        _ = a.value * x * invMod a.value a.mod % a.mod := by
              rw [show x * (a.value * invMod a.value a.mod) =
                a.value * x * invMod a.value a.mod by ring]
        _ = a.value * x % a.mod * (invMod a.value a.mod % a.mod) % a.mod :=
              Int.mul_emod _ _ _
        _ = 1 * invMod a.value a.mod % a.mod := by
              rw [hx, Int.emod_eq_of_lt hi0 hi1]
        _ = invMod a.value a.mod := by
              rw [one_mul, Int.emod_eq_of_lt hi0 hi1]

/-- Witness for C5 at a non-invertible base (2 mod 4), a positive exponent,
and the inverse of 3 mod 5. -/
theorem C5_pow_spec_witness :
    mint.pow false ⟨2, 4, 2⟩ (.ival (-1)) = .error .NotInvertible ∧
    mint.pow false ⟨3, 5, 1⟩ (.ival 2) = mint.init (pypow 3 2 5) 5 ∧
    (⟨4, 5, 1⟩ : mint).mod = 5 ∧
    (∃ r, mint.pow false ⟨3, 5, 1⟩ (.ival (-1)) = .ok r ∧
      0 ≤ r.value ∧ r.value < 5 ∧ 3 * r.value % 5 = 1 ∧
      ∀ x : Int, 0 ≤ x → x < 5 → 3 * x % 5 = 1 → x = r.value) :=
  ⟨C5_pow_spec.1 false ⟨2, 4, 2⟩ (-1) (by decide) (by decide),
   C5_pow_spec.2.1 false ⟨3, 5, 1⟩ 2 (by decide),
   C5_pow_spec.2.2.1 false ⟨3, 5, 1⟩ 2 ⟨4, 5, 1⟩ (by decide),
   C5_pow_spec.2.2.2 false ⟨3, 5, 1⟩ (by decide) (by decide)⟩


theorem init_ne_conv (v m : Int) : mint.init v m ≠ .error .ConversionDisabled :=
  fun h => MErr.noConfusion (init_error h)

theorem add_promote (a : mint) (n : Int) :
    mint.add false a (.ival n) = (mint.init n a.mod).bind (fun b => mint.add false a (.mval b)) := by
  unfold mint.add mint.check_value
  dsimp only
  rcases him : mint.init n a.mod with e | b
  · rfl
  · have hbm : b.mod = a.mod := init_ok_mod him
    show mint.init (a.value + b.value) a.mod = mint.add false a (.mval b)
    unfold mint.add mint.check_value
    dsimp only
    rw [if_neg (by omega)]

theorem sub_promote (a : mint) (n : Int) :
    mint.sub false a (.ival n) = (mint.init n a.mod).bind (fun b => mint.sub false a (.mval b)) := by
  unfold mint.sub mint.check_value
  dsimp only
  rcases him : mint.init n a.mod with e | b
  · rfl
  · have hbm : b.mod = a.mod := init_ok_mod him
    show mint.init (a.value - b.value) a.mod = mint.sub false a (.mval b)
    unfold mint.sub mint.check_value
    dsimp only
    rw [if_neg (by omega)]

theorem lt_promote (a : mint) (n : Int) :
    mint.lt false a (.ival n) = (mint.init n a.mod).bind (fun b => mint.lt false a (.mval b)) := by
  unfold mint.lt mint.check_value
  dsimp only
  rcases him : mint.init n a.mod with e | b
  · rfl
  · have hbm : b.mod = a.mod := init_ok_mod him
    show (.ok (decide (a.value < b.value)) : Except MErr Bool) = mint.lt false a (.mval b)
    unfold mint.lt mint.check_value
    dsimp only
    rw [if_neg (by omega)]

theorem le_promote (a : mint) (n : Int) :
    mint.le false a (.ival n) = (mint.init n a.mod).bind (fun b => mint.le false a (.mval b)) := by
  unfold mint.le mint.check_value
  dsimp only
  rcases him : mint.init n a.mod with e | b
  · rfl
  · have hbm : b.mod = a.mod := init_ok_mod him
    show (.ok (decide (a.value ≤ b.value)) : Except MErr Bool) = mint.le false a (.mval b)
    unfold mint.le mint.check_value
    dsimp only
    rw [if_neg (by omega)]

theorem gt_promote (a : mint) (n : Int) :
    mint.gt false a (.ival n) = (mint.init n a.mod).bind (fun b => mint.gt false a (.mval b)) := by
  unfold mint.gt mint.check_value
  dsimp only
  rcases him : mint.init n a.mod with e | b
  · rfl
  · have hbm : b.mod = a.mod := init_ok_mod him
    show (.ok (decide (a.value > b.value)) : Except MErr Bool) = mint.gt false a (.mval b)
    unfold mint.gt mint.check_value
    dsimp only
    rw [if_neg (by omega)]

theorem ge_promote (a : mint) (n : Int) :
    mint.ge false a (.ival n) = (mint.init n a.mod).bind (fun b => mint.ge false a (.mval b)) := by
  unfold mint.ge mint.check_value
  dsimp only
  rcases him : mint.init n a.mod with e | b
  · rfl
  · have hbm : b.mod = a.mod := init_ok_mod him
    show (.ok (decide (a.value ≥ b.value)) : Except MErr Bool) = mint.ge false a (.mval b)
    unfold mint.ge mint.check_value
    dsimp only
    rw [if_neg (by omega)]

/-- C6: with the conversion policy disallowing promotion, addition,
subtraction and the four order comparisons against a plain integer fail with
ConversionDisabled; with it allowing promotion, they first promote the
integer via `Construct(n, a.mod)` and then run the same-modulus algorithm;
in particular `Construct(3, 5) + 2 = Construct(0, 5)` with the policy
enabled. -/
theorem C6_conversion_gate :
    (∀ (a : mint) (n : Int),
        mint.add true a (.ival n) = .error .ConversionDisabled ∧
        mint.sub true a (.ival n) = .error .ConversionDisabled ∧
        mint.lt true a (.ival n) = .error .ConversionDisabled ∧
        mint.le true a (.ival n) = .error .ConversionDisabled ∧
        mint.gt true a (.ival n) = .error .ConversionDisabled ∧
        mint.ge true a (.ival n) = .error .ConversionDisabled) ∧
    (∀ (a : mint) (n : Int),
        mint.add false a (.ival n) =
          (mint.init n a.mod).bind (fun b => mint.add false a (.mval b)) ∧
        mint.sub false a (.ival n) =
          (mint.init n a.mod).bind (fun b => mint.sub false a (.mval b)) ∧
        mint.lt false a (.ival n) =
          (mint.init n a.mod).bind (fun b => mint.lt false a (.mval b)) ∧
        mint.le false a (.ival n) =
          (mint.init n a.mod).bind (fun b => mint.le false a (.mval b)) ∧
        mint.gt false a (.ival n) =
          (mint.init n a.mod).bind (fun b => mint.gt false a (.mval b)) ∧
        mint.ge false a (.ival n) =
          (mint.init n a.mod).bind (fun b => mint.ge false a (.mval b))) ∧
    (mint.init 3 5).bind (fun a => mint.add false a (.ival 2)) = mint.init 0 5 :=
  ⟨fun _ _ => ⟨rfl, rfl, rfl, rfl, rfl, rfl⟩,
   fun a n => ⟨add_promote a n, sub_promote a n, lt_promote a n, le_promote a n,
     gt_promote a n, ge_promote a n⟩,
   rfl⟩

/-- Counterexample to C7: reverse power does NOT pass the plain integer
through — `2 ** Construct(3, 5)` fails with ConversionDisabled when the
conversion policy disallows promotion, contradicting the claim that none of
the listed operations can fail with ConversionDisabled. -/
theorem C7_counterexample :
    (mint.init 3 5).bind (fun a => mint.rpow true a (.ival 2)) = .error .ConversionDisabled :=
  rfl

/-- C7 amended: `a * k`, `k * a`, `a ** k`, `a / k` and `a // k` pass the
plain integer through and can never fail with ConversionDisabled, but
reverse power `k ** a` goes through the promotion gate: it fails with
ConversionDisabled whenever the policy disallows promotion, and otherwise
promotes k and returns `Construct(pow(k, a.value, a.mod), a.mod)` (the
promotion reduces k mod m first, which does not change the result). -/
theorem C7_passthrough :
    (∀ (dis : Bool) (a : mint) (k : Int),
        mint.mul dis a (.ival k) ≠ .error .ConversionDisabled ∧
        mint.rmul dis a (.ival k) ≠ .error .ConversionDisabled ∧
        mint.pow dis a (.ival k) ≠ .error .ConversionDisabled ∧
        mint.truediv dis a (.ival k) ≠ .error .ConversionDisabled ∧
        mint.floordiv dis a (.ival k) ≠ .error .ConversionDisabled) ∧
    (∀ (a : mint) (k : Int), mint.rpow true a (.ival k) = .error .ConversionDisabled) ∧
    (∀ (a : mint) (k : Int), Inv a →
        mint.rpow false a (.ival k) = mint.init (pypow k a.value a.mod) a.mod) := by
  have hmul : ∀ (dis : Bool) (a : mint) (k : Int),
      mint.mul dis a (.ival k) ≠ .error .ConversionDisabled := by
    intro dis a k
    rw [mul_ival]
    split
    · exact init_ne_conv _ _
    · exact init_ne_conv _ _
  have hdiv : ∀ (dis : Bool) (a : mint) (k : Int),
      mint.truediv dis a (.ival k) ≠ .error .ConversionDisabled := by
    intro dis a k
    rw [truediv_ival]
    repeat' split
    · simp
    · simp
    · simp
    · exact init_ne_conv _ _
  refine ⟨fun dis a k => ⟨hmul dis a k, hmul dis a k, ?_, hdiv dis a k, hdiv dis a k⟩,
    fun _ _ => rfl, ?_⟩
  · rw [pow_ival]
    split
    · simp
    · exact init_ne_conv _ _
  · intro a k ha
    obtain ⟨h0, h1, h2, h3⟩ := ha
    have hp : pypow (k % a.mod) a.value a.mod = pypow k a.value a.mod := by
      unfold pypow
      simp only [if_pos h0]
      exact emod_pow_emod k a.value.toNat a.mod
    unfold mint.rpow mint.check_value
    dsimp only
    rw [init_eq_ok k h2]
    show mint.init (pypow (k % a.mod) a.value a.mod) a.mod =
      mint.init (pypow k a.value a.mod) a.mod
    rw [hp]

/-- Witness for the amended C7 at `Construct(3, 5)` and k = 2. -/
theorem C7_passthrough_witness :
    mint.mul false ⟨3, 5, 1⟩ (.ival 2) ≠ .error .ConversionDisabled ∧
    mint.rpow true ⟨3, 5, 1⟩ (.ival 2) = .error .ConversionDisabled ∧
    mint.rpow false ⟨3, 5, 1⟩ (.ival 2) = mint.init (pypow 2 3 5) 5 :=
  ⟨(C7_passthrough.1 false ⟨3, 5, 1⟩ 2).1,
   C7_passthrough.2.1 ⟨3, 5, 1⟩ 2,
   C7_passthrough.2.2 ⟨3, 5, 1⟩ 2 (by decide)⟩

/-- C8: equality is total (a `Bool`-valued function, never an error): two
modular entities are equal iff value and modulus both match, and a mismatch
of moduli gives `false`, not IncompatibleModulus; a modular entity equals a
plain integer iff its value is the integer reduced mod the modulus and the
conversion policy allows promotion; inequality is the boolean negation of
equality in every case. -/
theorem C8_eq_spec :
    (∀ (dis : Bool) (a b : mint),
        (mint.eq dis a (.mval b) = true ↔ a.value = b.value ∧ a.mod = b.mod)) ∧
    (∀ (dis : Bool) (a b : mint), a.mod ≠ b.mod → mint.eq dis a (.mval b) = false) ∧
    (∀ (dis : Bool) (a : mint) (n : Int),
        (mint.eq dis a (.ival n) = true ↔ a.value = n % a.mod ∧ dis = false)) ∧
    (∀ (dis : Bool) (a : mint) (o : PyNum), mint.ne dis a o = !(mint.eq dis a o)) := by
  refine ⟨?_, ?_, ?_, fun dis a o => rfl⟩
  · intro dis a b
    simp [mint.eq]
  · intro dis a b hm
    rw [Bool.eq_false_iff]
    simp only [mint.eq, ne_eq, Bool.and_eq_true, beq_iff_eq, not_and]
    exact fun _ h => hm h
  · intro dis a n
    simp [mint.eq, Bool.not_eq_true']

/-- Witness for C8: entities with moduli 5 and 7 compare unequal. -/
theorem C8_eq_spec_witness :
    mint.eq false ⟨1, 5, 1⟩ (.mval ⟨1, 7, 1⟩) = false :=
  C8_eq_spec.2.1 false ⟨1, 5, 1⟩ ⟨1, 7, 1⟩ (by decide)

/-- Counterexample to C9: `__eq__` does not apply the coercion protocol to a
float — with the conversion policy enabled, `Construct(3, 5) == 3.0` is
`false` while `Construct(3, 5) == 3` (its truncation) is `true`, so equality
against a float does not behave like equality against its truncation. -/
theorem C9_counterexample :
    (mint.init 3 5).map (fun a => mint.eq false a (.fval 3)) = .ok false ∧
    (mint.init 3 5).map (fun a => mint.eq false a (.ival 3)) = .ok true :=
  ⟨rfl, rfl⟩

/-- C9 amended: the decorated binary operators (add, sub, mul, pow, div,
floordiv, the four order comparisons and reverse power) apply the coercion
protocol and treat a float exactly like its truncation to a plain integer;
equality and inequality bypass the protocol: a float operand always compares
unequal (`==` is `false`, `!=` is `true`), in particular
`Construct(3, 5) == 3.0` is `false` even with the policy enabled. -/
theorem C9_float_narrowing :
    (∀ (dis : Bool) (a : mint) (t : Int),
        mint.eq dis a (.fval t) = false ∧ mint.ne dis a (.fval t) = true) ∧
    (∀ (dis : Bool) (a : mint) (t : Int),
        mint.add dis a (.fval t) = mint.add dis a (.ival t) ∧
        mint.sub dis a (.fval t) = mint.sub dis a (.ival t) ∧
        mint.mul dis a (.fval t) = mint.mul dis a (.ival t) ∧
        mint.pow dis a (.fval t) = mint.pow dis a (.ival t) ∧
        mint.truediv dis a (.fval t) = mint.truediv dis a (.ival t) ∧
        mint.floordiv dis a (.fval t) = mint.floordiv dis a (.ival t) ∧
        mint.lt dis a (.fval t) = mint.lt dis a (.ival t) ∧
        mint.le dis a (.fval t) = mint.le dis a (.ival t) ∧
        mint.gt dis a (.fval t) = mint.gt dis a (.ival t) ∧
        mint.ge dis a (.fval t) = mint.ge dis a (.ival t) ∧
        mint.rpow dis a (.fval t) = mint.rpow dis a (.ival t)) ∧
    (mint.init 3 5).map (fun a => mint.eq false a (.fval 3)) = .ok false :=
  ⟨fun _ _ _ => ⟨rfl, rfl⟩,
   fun _ _ _ => ⟨rfl, rfl, rfl, rfl, rfl, rfl, rfl, rfl, rfl, rfl, rfl⟩,
   rfl⟩


end MintSpec
